import Mathlib

/-!
Shallow embedding of the segmented download engine in `src/Main.go`
(a concurrent download manager).

The engine splits a resource of known size into `MaxThread` inclusive byte
ranges (`Block`s), fetches each range concurrently in `CacheSize`-byte chunks,
writes every chunk at the block's current `Begin` offset, and exposes
pause/resume control plus a `Status` counter pair (`Downloaded`, `Speeds`).

Pure pieces of the code become Lean functions; the stateful chunk loop of
`downloadBlock` becomes a step function over an explicit per-fetch state and a
schedule of observed events (the `paused` flag at the checkpoint, what
`resp.Body.Read` returned, whether the sink write would succeed); the
transfer-level mutations become a step relation `EngineStep`.
-/

/-- Global `MaxThread` (Main.go line 16): the fixed parallelism. -/
def MaxThread : Nat := 5

/-- Global `CacheSize` (Main.go line 17): the chunk buffer size handed to
`resp.Body.Read` (a conforming reader returns at most this many bytes). -/
def CacheSize : Nat := 1024

/-- `Status` (Main.go lines 20-23): the live counters of one transfer. -/
structure Status where
  Downloaded : Int
  Speeds : Int
deriving DecidableEq, Repr

/-- `Block` (Main.go lines 25-28): an inclusive byte range `[Begin, End]`;
the sentinel `End = -1` marks the single unbounded block used when the total
size is unknown. -/
structure Block where
  Begin : Int
  End : Int
deriving DecidableEq, Repr

/-- Number of bytes the inclusive range `[Begin, End]` of a block nominally
covers. -/
def blockSpan (b : Block) : Int := b.End + 1 - b.Begin

/-- Sum of the nominal spans of a block list. -/
def totalSpan (bs : List Block) : Int := (bs.map blockSpan).sum

/-- The planning loop inside `Start` (Main.go lines 65-71): starting from
`begin = 0`, each iteration `i` computes `end := (i+1)*blockSize`, appends
`Block{begin, end}` and sets `begin := end + 1`.  `i` is the Go loop index,
`rem` the number of iterations still to run, `b` the running `begin`. -/
def planLoop (blockSize : Int) : Nat → Nat → Int → List Block
  | _, 0, _ => []
  | i, rem + 1, b =>
    Block.mk b (((i : Int) + 1) * blockSize) ::
      planLoop blockSize (i + 1) rem ((((i : Int) + 1) * blockSize) + 1)

/-- The last-block fixup of `Start` (Main.go line 72):
`BlockList[MaxThread-1].End += Size - BlockList[MaxThread-1].End`,
i.e. the last `End` becomes exactly `Size`. -/
def setLastEnd (size : Int) : List Block → List Block
  | [] => []
  | [b] => [Block.mk b.Begin (b.End + (size - b.End))]
  | b :: bs => b :: setLastEnd size bs

/-- The block plan computed at first `Start` (Main.go lines 62-73): one
unbounded block when `size ≤ 0`, otherwise the loop of `planLoop` with
`blockSize = size / maxThread` followed by the last-block fixup.  In the
program `maxThread` is the global `MaxThread`. -/
def planBlocks (size : Int) (maxThread : Nat) : List Block :=
  if size ≤ 0 then [Block.mk 0 (-1)]
  else setLastEnd size (planLoop (size / (maxThread : Int)) 0 maxThread 0)

/-- Fetchers spawned by `download` (Main.go lines 88-103): one goroutine per
entry of `BlockList` (`for i := range f.BlockList`). -/
def spawnedFetchers (blockList : List Block) : Nat := blockList.length

/-- Completions awaited by `download` before deciding Paused/Finished
(Main.go lines 105-107): `for i := 0; i < MaxThread; i++ { <-ok }` — always
the global `MaxThread`, independent of how many fetchers were spawned. -/
def awaitedCompletions (_blockList : List Block) : Nat := MaxThread

/-- What one `resp.Body.Read(buf)` call can report alongside its byte count:
more data follows (`ok`, error nil), end of stream (`eof`, error `io.EOF`), or
a network-level read failure (`fail`, any other error). -/
inductive ReadSignal where
  | ok : ReadSignal
  | eof : ReadSignal
  | fail : ReadSignal
deriving DecidableEq, Repr

/-- One iteration of the chunk loop of `downloadBlock` (Main.go lines
139-166) as observed by the fetcher: the transfer's `paused` flag at the
checkpoint, the byte count `n` and signal reported by `resp.Body.Read`, and
whether the `Stream.WriteAt` call would succeed.  The source discards the
result of `WriteAt` (line 155), so `writeOk` is never inspected — exactly as
in the code. -/
structure ChunkEvent where
  paused : Bool
  n : Nat
  sig : ReadSignal
  writeOk : Bool
deriving DecidableEq, Repr

/-- The mutable state one fetch attempt touches: the block's `Begin` cursor
(`f.BlockList[id].Begin`), the shared counter `f.status.Downloaded`, and a log
of the `WriteAt` calls issued, as (offset, byte count) pairs. -/
structure FetchState where
  Begin : Int
  Downloaded : Int
  writes : List (Int × Int)
deriving DecidableEq, Repr

/-- How one fetch attempt of `downloadBlock` can end: `success` (`return nil`),
`netError` (a non-EOF read error is returned), or `panicked` (the Go slice
expression `buf[:n]` with negative `n`, reachable only from `Begin > End + 1`,
panics before anything is written). -/
inductive FetchOutcome where
  | success : FetchOutcome
  | netError : FetchOutcome
  | panicked : FetchOutcome
deriving DecidableEq, Repr

/-- Result of one loop iteration: the fetch returns with an outcome, or the
loop continues with an updated state. -/
inductive StepResult where
  | done : FetchOutcome → FetchState → StepResult
  | again : FetchState → StepResult
deriving DecidableEq, Repr

/-- The fetch state carried by a step result. -/
def StepResult.state : StepResult → FetchState
  | StepResult.done _ s => s
  | StepResult.again s => s

/-- The bounded-block truncation of Main.go lines 146-154: when the captured
`end` is not `-1` and the read returned more than `needSize = End + 1 - Begin`
bytes still owed, both the write length and the counted size are clamped to
`needSize` and the error is overwritten with `io.EOF`. -/
def truncRead (endV b : Int) (n : Nat) (sig : ReadSignal) : Int × ReadSignal :=
  if endV ≠ -1 ∧ (n : Int) > endV + 1 - b then (endV + 1 - b, ReadSignal.eof)
  else ((n : Int), sig)

/-- One iteration of the body of `downloadBlock`'s loop (Main.go lines
139-166): check the paused flag and return nil if set; otherwise read a chunk,
apply the bounded truncation, write `buf[:n]` at the current `Begin` (the
write's error is discarded), add the chunk size to `Downloaded`, advance
`Begin`, and return on EOF (nil) or on any other error.  `endV` is the `end`
value captured before the loop (line 124); the block's `End` field is never
mutated after planning, so it stays equal to `endV` throughout. -/
def downloadBlockStep (endV : Int) (s : FetchState) (ev : ChunkEvent) : StepResult :=
  if ev.paused then StepResult.done FetchOutcome.success s
  else
    let r := truncRead endV s.Begin ev.n ev.sig
    if r.1 < 0 then StepResult.done FetchOutcome.panicked s
    else
      let s' : FetchState :=
        FetchState.mk (s.Begin + r.1) (s.Downloaded + r.1) (s.writes ++ [(s.Begin, r.1)])
      match r.2 with
      | ReadSignal.ok => StepResult.again s'
      | ReadSignal.eof => StepResult.done FetchOutcome.success s'
      | ReadSignal.fail => StepResult.done FetchOutcome.netError s'

/-- Result of running the chunk loop against a finite schedule of events:
either the loop returned, or the schedule was exhausted with the loop still
running (the attempt is still in flight). -/
inductive RunResult where
  | finished : FetchOutcome → FetchState → RunResult
  | outOfEvents : FetchState → RunResult
deriving DecidableEq, Repr

/-- The fetch state carried by a run result. -/
def RunResult.state : RunResult → FetchState
  | RunResult.finished _ s => s
  | RunResult.outOfEvents s => s

/-- The outcome of a run, when the loop returned. -/
def RunResult.outcome : RunResult → Option FetchOutcome
  | RunResult.finished out _ => some out
  | RunResult.outOfEvents _ => none

/-- The chunk loop of `downloadBlock` (Main.go lines 139-166) iterated over a
schedule of chunk events. -/
def downloadBlockRun (endV : Int) : FetchState → List ChunkEvent → RunResult
  | s, [] => RunResult.outOfEvents s
  | s, ev :: evs =>
    match downloadBlockStep endV s ev with
    | StepResult.done out s' => RunResult.finished out s'
    | StepResult.again s' => downloadBlockRun endV s' evs

/-- The engine-relevant fields of the `File` struct (Main.go lines 30-45):
the probed size, the block list, the paused flag and the shared status.  The
URL, the sink handle and the callback closures carry no engine state. -/
structure TransferState where
  size : Int
  blockList : List Block
  paused : Bool
  status : Status
deriving DecidableEq, Repr

/-- `Pause` (Main.go lines 169-171): sets the paused flag. -/
def Pause (t : TransferState) : TransferState := { t with paused := true }

/-- The externally visible effects of one `Resume` call: whether the error
callback fired, whether the resume callback fired, and how many fetcher
goroutines were dispatched by the ensuing `download`. -/
structure ResumeEvents where
  errorFired : Bool
  resumeFired : Bool
  dispatched : Nat
deriving DecidableEq, Repr

/-- `Resume` (Main.go lines 173-188): unconditionally clears the paused flag
(line 174), then — in the spawned goroutine — fails with the no-blocks error
when the list is nil and dispatches nothing, otherwise fires the resume
callback and dispatches one fetcher per block via `download`.  In this engine
the block list is empty exactly when it is nil (`Start` always appends at
least one block and fetchers never remove any), so the nil check is embedded
as emptiness. -/
def Resume (t : TransferState) : TransferState × ResumeEvents :=
  ({ t with paused := false },
   if t.blockList.isEmpty then ResumeEvents.mk true false 0
   else ResumeEvents.mk false true (spawnedFetchers t.blockList))

/-- The lifecycle callback fired by the tail of `download`. -/
inductive LifecycleEvent where
  | pauseEvt : LifecycleEvent
  | finishEvt : LifecycleEvent
deriving DecidableEq, Repr

/-- The fan-in decision at the end of `download` (Main.go lines 108-115),
taken after the awaited completions arrive: if the paused flag is set, fire
the pause callback; otherwise set the paused flag and fire the finish
callback. -/
def downloadComplete (t : TransferState) : TransferState × LifecycleEvent :=
  if t.paused then (t, LifecycleEvent.pauseEvt)
  else ({ t with paused := true }, LifecycleEvent.finishEvt)

/-- The fetch state a fetcher for block `b` of transfer `t` starts one loop
iteration from: the block's current `Begin` and the shared `Downloaded`. -/
def blockFetchState (t : TransferState) (b : Block) : FetchState :=
  FetchState.mk b.Begin t.status.Downloaded []

/-- Writing one loop iteration's effects back into the transfer: block `id`
keeps its `End` and takes the new `Begin`; the shared `Downloaded` takes the
new value; `Speeds` is untouched. -/
def applyChunk (t : TransferState) (id : Nat) (endV : Int) (s : FetchState) : TransferState :=
  { t with blockList := t.blockList.set id (Block.mk s.Begin endV)
         , status := Status.mk s.Downloaded t.status.Speeds }

/-- One atomic state change of the engine, covering every place the source
mutates transfer state: the plan creation in `Start` (lines 62-73), one chunk
iteration of some fetcher (lines 139-166), `Pause` (line 170), the flag-clear
of `Resume` (line 174), the Paused/Finished decision of `download` (lines
108-115), and the two `Speeds` updates of `startGetSpeeds` (lines 195 and
199). -/
inductive EngineStep : TransferState → TransferState → Prop where
  | startPlan (t : TransferState) :
      EngineStep t { t with blockList := planBlocks t.size MaxThread }
  | chunk (t : TransferState) (id : Nat) (b : Block) (ev : ChunkEvent)
      (hb : t.blockList[id]? = some b) :
      EngineStep t
        (applyChunk t id b.End ((downloadBlockStep b.End (blockFetchState t b) ev).state))
  | pauseStep (t : TransferState) : EngineStep t (Pause t)
  | resumeStep (t : TransferState) : EngineStep t (Resume t).1
  | completeStep (t : TransferState) : EngineStep t (downloadComplete t).1
  | speedSample (t : TransferState) (old : Int) :
      EngineStep t { t with status := Status.mk t.status.Downloaded (t.status.Downloaded - old) }
  | speedReset (t : TransferState) :
      EngineStep t { t with status := Status.mk t.status.Downloaded 0 }

/-! ### Helper lemmas -/

/-- With a bounded `endV`, truncation keeps `Begin + written ≤ End + 1`:
either the read was clamped to exactly the bytes owed, or it already fit. -/
theorem truncRead_fst_le (endV b : Int) (n : Nat) (sig : ReadSignal)
    (hend : endV ≠ -1) : b + (truncRead endV b n sig).1 ≤ endV + 1 := by
  unfold truncRead
  split_ifs with h
  · omega
  · push_neg at h
    have := h hend
    simp only
    omega

/-- One loop iteration never decreases the shared `Downloaded` counter. -/
theorem downloadBlockStep_downloaded_mono (endV : Int) (s : FetchState) (ev : ChunkEvent) :
    s.Downloaded ≤ ((downloadBlockStep endV s ev).state).Downloaded := by
  unfold downloadBlockStep
  cases hp : ev.paused
  · simp only [Bool.false_eq_true, if_false]
    split_ifs with hneg
    · simp [StepResult.state]
    · cases hsig : (truncRead endV s.Begin ev.n ev.sig).2 <;>
        simp [StepResult.state] <;> omega
  · simp [StepResult.state]

/-- A whole fetch attempt never decreases the shared `Downloaded` counter. -/
theorem downloadBlockRun_downloaded_mono (endV : Int) :
    ∀ (evs : List ChunkEvent) (s : FetchState),
      s.Downloaded ≤ ((downloadBlockRun endV s evs).state).Downloaded := by
  intro evs
  induction evs with
  | nil => intro s; simp [downloadBlockRun, RunResult.state]
  | cons ev evs ih =>
    intro s
    have hstep := downloadBlockStep_downloaded_mono endV s ev
    simp only [downloadBlockRun]
    cases h : downloadBlockStep endV s ev with
    | done out s' =>
      rw [h] at hstep
      simpa [RunResult.state] using hstep
    | again s' =>
      rw [h] at hstep
      simp only [StepResult.state] at hstep
      exact le_trans hstep (ih s')

/-- Running the loop on an appended schedule: the first part either finishes
the attempt or hands its final state to the second part. -/
theorem downloadBlockRun_append (endV : Int) :
    ∀ (pre : List ChunkEvent) (s : FetchState) (rest : List ChunkEvent),
      downloadBlockRun endV s (pre ++ rest) =
        (match downloadBlockRun endV s pre with
         | RunResult.finished out s' => RunResult.finished out s'
         | RunResult.outOfEvents s' => downloadBlockRun endV s' rest) := by
  intro pre
  induction pre with
  | nil => intro s rest; simp [downloadBlockRun]
  | cons ev evs ih =>
    intro s rest
    simp only [List.cons_append, downloadBlockRun]
    cases h : downloadBlockStep endV s ev with
    | done out s' => simp
    | again s' => exact ih s' rest

/-- One step of the engine never decreases `Downloaded`. -/
theorem engineStep_downloaded_mono {t t' : TransferState} (h : EngineStep t t') :
    t.status.Downloaded ≤ t'.status.Downloaded := by
  cases h with
  | startPlan => simp
  | chunk id b ev hb =>
    simpa [applyChunk, blockFetchState] using
      downloadBlockStep_downloaded_mono b.End (blockFetchState t b) ev
  | pauseStep => simp [Pause]
  | resumeStep => simp [Resume]
  | completeStep =>
    unfold downloadComplete
    split_ifs <;> simp
  | speedSample old => simp
  | speedReset => simp

/-! ### Claims -/

/-- C1: the claim says the plan for a known size `S > 0` has every non-final
block of floor size `S / parallelism`, last `End = S - 1`, and union exactly
`[0, S)`.  The code disagrees: at `Size = 100000` with `MaxThread = 5` the
first block spans `20001` bytes (not the floor `20000`), the last `End` is
`100000 = S` (not `99999`), and the nominal spans sum to `100001 = S + 1`, so
the union is `[0, S]`.  This theorem evaluates the embedded planner at that
failing input. -/
theorem C1_plan_off_by_one :
    planBlocks 100000 MaxThread =
      [Block.mk 0 20000, Block.mk 20001 40000, Block.mk 40001 60000,
       Block.mk 60001 80000, Block.mk 80001 100000] ∧
    (planBlocks 100000 MaxThread).map blockSpan = [20001, 20000, 20000, 20000, 20000] ∧
    totalSpan (planBlocks 100000 MaxThread) = 100001 ∧
    (planBlocks 100000 MaxThread).getLast? = some (Block.mk 80001 100000) := by
  decide

/-- C2: the claim says `download` awaits exactly one completion per spawned
fetcher — in particular exactly one for the single unknown-size block.  The
code awaits the global `MaxThread = 5` completions regardless of the block
list: at the unknown-size plan (one block, one fetcher, one signal ever sent)
it awaits five, so the fan-in never completes.  This theorem evaluates both
counts at that failing input. -/
theorem C2_awaits_maxthread_not_blocks :
    planBlocks (-1) MaxThread = [Block.mk 0 (-1)] ∧
    spawnedFetchers (planBlocks (-1) MaxThread) = 1 ∧
    awaitedCompletions (planBlocks (-1) MaxThread) = 5 ∧
    awaitedCompletions (planBlocks (-1) MaxThread) ≠
      spawnedFetchers (planBlocks (-1) MaxThread) := by
  decide

/-- C5: resuming a transfer whose block list is empty fires the error
callback, does not fire the resume callback, and dispatches no fetchers. -/
theorem C5_resume_empty_fails_no_fetchers (t : TransferState)
    (h : t.blockList = []) :
    (Resume t).2 = ResumeEvents.mk true false 0 := by
  simp [Resume, h]

/-- C5 witness: the theorem applied to a concrete paused transfer with an
empty block list. -/
theorem C5_resume_empty_fails_no_fetchers_witness :
    (Resume (TransferState.mk 0 [] true (Status.mk 0 0))).2 =
      ResumeEvents.mk true false 0 :=
  C5_resume_empty_fails_no_fetchers (TransferState.mk 0 [] true (Status.mk 0 0)) rfl

/-- C9: `Resume` clears the paused flag before the nil check, so even a
`Resume` that fails with the no-blocks error (error fired, no resume callback,
nothing dispatched) leaves the transfer un-paused. -/
theorem C9_failed_resume_unpauses (t : TransferState) (h : t.blockList = []) :
    (Resume t).1.paused = false ∧ (Resume t).2.errorFired = true ∧
    (Resume t).2.resumeFired = false ∧ (Resume t).2.dispatched = 0 := by
  simp [Resume, h]

/-- C9 witness: a concrete paused transfer with a nil block list is un-paused
by the failing `Resume`. -/
theorem C9_failed_resume_unpauses_witness :
    (Resume (TransferState.mk (-1) [] true (Status.mk 7 0))).1.paused = false ∧
    (Resume (TransferState.mk (-1) [] true (Status.mk 7 0))).2.errorFired = true ∧
    (Resume (TransferState.mk (-1) [] true (Status.mk 7 0))).2.resumeFired = false ∧
    (Resume (TransferState.mk (-1) [] true (Status.mk 7 0))).2.dispatched = 0 :=
  C9_failed_resume_unpauses (TransferState.mk (-1) [] true (Status.mk 7 0)) rfl

/-- C10: when `download` completes with the paused flag clear, it sets the
flag to true and fires the finish callback, so after every successful finish
the paused flag reads true. -/
theorem C10_finish_sets_paused (t : TransferState) (h : t.paused = false) :
    downloadComplete t = ({ t with paused := true }, LifecycleEvent.finishEvt) ∧
    (downloadComplete t).1.paused = true := by
  unfold downloadComplete
  rw [h]
  simp

/-- C10 witness: the theorem applied to a concrete un-paused transfer. -/
theorem C10_finish_sets_paused_witness :
    downloadComplete (TransferState.mk 100 [Block.mk 0 99] false (Status.mk 100 0)) =
      (TransferState.mk 100 [Block.mk 0 99] true (Status.mk 100 0),
       LifecycleEvent.finishEvt) :=
  (C10_finish_sets_paused
    (TransferState.mk 100 [Block.mk 0 99] false (Status.mk 100 0)) rfl).1

/-- Every write a loop iteration issues on a bounded block ends at or before
`End`: offsets plus lengths stay within `End + 1`. -/
theorem downloadBlockStep_writes_bounded (endV : Int) (hend : endV ≠ -1)
    (s : FetchState) (ev : ChunkEvent)
    (hs : ∀ w ∈ s.writes, w.1 + w.2 ≤ endV + 1) :
    ∀ w ∈ ((downloadBlockStep endV s ev).state).writes, w.1 + w.2 ≤ endV + 1 := by
  unfold downloadBlockStep
  cases hp : ev.paused
  · simp only [Bool.false_eq_true, if_false]
    split_ifs with hneg
    · simpa [StepResult.state] using hs
    · have hb := truncRead_fst_le endV s.Begin ev.n ev.sig hend
      cases hsig : (truncRead endV s.Begin ev.n ev.sig).2 <;>
        simp only [StepResult.state] <;>
        intro w hw <;>
        rcases List.mem_append.mp hw with h1 | h2 <;>
        first
          | exact hs w h1
          | (simp only [List.mem_singleton] at h2; subst h2; simpa using hb)
  · simpa [StepResult.state] using hs

/-- Every write a whole fetch attempt issues on a bounded block ends at or
before `End`. -/
theorem downloadBlockRun_writes_bounded (endV : Int) (hend : endV ≠ -1) :
    ∀ (evs : List ChunkEvent) (s : FetchState),
      (∀ w ∈ s.writes, w.1 + w.2 ≤ endV + 1) →
      ∀ w ∈ ((downloadBlockRun endV s evs).state).writes, w.1 + w.2 ≤ endV + 1 := by
  intro evs
  induction evs with
  | nil => intro s hs; simpa [downloadBlockRun, RunResult.state] using hs
  | cons ev evs ih =>
    intro s hs
    have hstep := downloadBlockStep_writes_bounded endV hend s ev hs
    simp only [downloadBlockRun]
    cases h : downloadBlockStep endV s ev with
    | done out s' =>
      rw [h] at hstep
      simpa [RunResult.state] using hstep
    | again s' =>
      rw [h] at hstep
      simp only [StepResult.state] at hstep
      exact ih s' hstep

/-- C3: on a block with bounded `End`, `downloadBlock` never writes past
`End` — every write of any run lands entirely within `[ , End]` — and whenever
a chunk read yields more bytes than the `End + 1 - Begin` still owed, the
iteration writes exactly that count at the current `Begin`, advances `Begin`
to `End + 1`, counts exactly that many bytes, and returns success regardless
of the signal the underlying stream reported. -/
theorem C3_never_writes_past_end (endV : Int) (hend : endV ≠ -1) :
    (∀ (s : FetchState) (evs : List ChunkEvent),
      (∀ w ∈ s.writes, w.1 + w.2 ≤ endV + 1) →
      ∀ w ∈ ((downloadBlockRun endV s evs).state).writes, w.1 + w.2 ≤ endV + 1) ∧
    (∀ (s : FetchState) (ev : ChunkEvent),
      ev.paused = false → 0 ≤ endV + 1 - s.Begin → (ev.n : Int) > endV + 1 - s.Begin →
      downloadBlockStep endV s ev =
        StepResult.done FetchOutcome.success
          (FetchState.mk (endV + 1) (s.Downloaded + (endV + 1 - s.Begin))
            (s.writes ++ [(s.Begin, endV + 1 - s.Begin)]))) := by
  constructor
  · exact fun s evs hs => downloadBlockRun_writes_bounded endV hend evs s hs
  · intro s ev hp hnn hgt
    have htr : truncRead endV s.Begin ev.n ev.sig = (endV + 1 - s.Begin, ReadSignal.eof) := by
      unfold truncRead
      rw [if_pos ⟨hend, hgt⟩]
    unfold downloadBlockStep
    rw [hp]
    simp only [Bool.false_eq_true, if_false, htr]
    rw [if_neg (by omega)]
    have hbeg : s.Begin + (endV + 1 - s.Begin) = endV + 1 := by ring
    rw [hbeg]

/-- C3 witness: block span `[0, 9]`, a 1024-byte read with a non-EOF error
signal is truncated to the 10 bytes owed, written at offset 0, and the
iteration returns success. -/
theorem C3_never_writes_past_end_witness :
    ((9 : Int) ≠ -1) ∧
    downloadBlockStep 9 (FetchState.mk 0 0 []) (ChunkEvent.mk false 1024 ReadSignal.fail true) =
      StepResult.done FetchOutcome.success (FetchState.mk 10 10 [(0, 10)]) := by
  refine ⟨by decide, ?_⟩
  have h := (C3_never_writes_past_end 9 (by decide)).2 (FetchState.mk 0 0 [])
    (ChunkEvent.mk false 1024 ReadSignal.fail true) rfl (by decide) (by decide)
  simpa using h

/-- C4 counterexample: the claim says a failed sink write is returned as a
`WriteError` for the fetch attempt.  At block span `[0, 9]`, a 10-byte EOF
read whose `WriteAt` fails (`writeOk = false`) still ends the attempt with
success — the outcome is `some success`, not an error — and the 10 bytes are
still counted, refuting the claim. -/
theorem C4_counterexample_write_failure_ignored :
    downloadBlockRun 9 (FetchState.mk 0 0 []) [ChunkEvent.mk false 10 ReadSignal.eof false] =
      RunResult.finished FetchOutcome.success (FetchState.mk 10 10 [(0, 10)]) ∧
    (downloadBlockRun 9 (FetchState.mk 0 0 [])
        [ChunkEvent.mk false 10 ReadSignal.eof false]).outcome =
      some FetchOutcome.success := by
  decide

/-- C4 amended: `downloadBlock` discards the error of every sink write
(Main.go line 155): a run behaves identically — same outcome, same `Begin`,
same `Downloaded`, same write log — whether or not its writes succeed, so no
write failure is ever surfaced to the error callback. -/
theorem C4_write_errors_discarded (endV : Int) (s : FetchState) :
    ∀ (evs : List ChunkEvent),
      downloadBlockRun endV s evs =
        downloadBlockRun endV s
          (evs.map (fun ev => ChunkEvent.mk ev.paused ev.n ev.sig true)) := by
  intro evs
  induction evs generalizing s with
  | nil => rfl
  | cons ev evs ih =>
    simp only [List.map_cons, downloadBlockRun]
    have hstep : downloadBlockStep endV s (ChunkEvent.mk ev.paused ev.n ev.sig true) =
        downloadBlockStep endV s ev := rfl
    rw [hstep]
    cases h : downloadBlockStep endV s ev with
    | done out s2 => rfl
    | again s2 => exact ih s2

/-- C6: whenever the paused flag reads true at the checkpoint before a chunk
read, the fetch returns immediately with no error: however the attempt reached
that checkpoint, the remaining schedule is ignored and the state — in
particular the block's `Begin` resume cursor — is exactly the state at the
checkpoint. -/
theorem C6_pause_checkpoint (endV : Int) (s s' : FetchState)
    (pre post : List ChunkEvent) (ev : ChunkEvent)
    (hpre : downloadBlockRun endV s pre = RunResult.outOfEvents s')
    (hp : ev.paused = true) :
    downloadBlockRun endV s (pre ++ ev :: post) =
      RunResult.finished FetchOutcome.success s' := by
  rw [downloadBlockRun_append, hpre]
  simp [downloadBlockRun, downloadBlockStep, hp]

/-- C6 witness: after one 4-byte chunk, a paused checkpoint ends the fetch
with success at `Begin = 4` and the rest of the schedule untouched. -/
theorem C6_pause_checkpoint_witness :
    downloadBlockRun 99 (FetchState.mk 0 0 [])
        ([ChunkEvent.mk false 4 ReadSignal.ok true] ++
          ChunkEvent.mk true 7 ReadSignal.ok true :: [ChunkEvent.mk false 3 ReadSignal.ok true]) =
      RunResult.finished FetchOutcome.success (FetchState.mk 4 4 [(0, 4)]) :=
  C6_pause_checkpoint 99 (FetchState.mk 0 0 []) (FetchState.mk 4 4 [(0, 4)])
    [ChunkEvent.mk false 4 ReadSignal.ok true]
    [ChunkEvent.mk false 3 ReadSignal.ok true]
    (ChunkEvent.mk true 7 ReadSignal.ok true) (by decide) rfl

/-- On a completed bounded block (`Begin = End + 1`, nothing owed), one
non-paused loop iteration logs a zero-length write and leaves the state
unchanged: a read that delivered data is truncated to zero and ends with
success, a zero-byte read passes its own signal through. -/
theorem doneBlock_step (endV d : Int) (ws : List (Int × Int)) (hend : endV ≠ -1)
    (ev : ChunkEvent) (hp : ev.paused = false) :
    downloadBlockStep endV (FetchState.mk (endV + 1) d ws) ev =
      (if ev.n = 0 then
        (match ev.sig with
         | ReadSignal.ok =>
             StepResult.again (FetchState.mk (endV + 1) d (ws ++ [(endV + 1, 0)]))
         | ReadSignal.eof =>
             StepResult.done FetchOutcome.success
               (FetchState.mk (endV + 1) d (ws ++ [(endV + 1, 0)]))
         | ReadSignal.fail =>
             StepResult.done FetchOutcome.netError
               (FetchState.mk (endV + 1) d (ws ++ [(endV + 1, 0)])))
       else
         StepResult.done FetchOutcome.success
           (FetchState.mk (endV + 1) d (ws ++ [(endV + 1, 0)]))) := by
  have h0 : endV + 1 - (endV + 1) = (0 : Int) := by ring
  by_cases hn : ev.n = 0
  · cases hsig : ev.sig <;>
      simp [downloadBlockStep, truncRead, hp, hn, hsig, h0]
  · have hpos : (0 : Int) < (ev.n : Int) := by exact_mod_cast Nat.pos_of_ne_zero hn
    simp [downloadBlockStep, truncRead, hp, hn, hend, h0, hpos]

/-- On a completed bounded block, a whole run changes nothing: `Begin` and
`Downloaded` keep their values, every logged write has length zero, the run
never panics, and a network error can surface only from an event that read
zero bytes with a failure signal. -/
theorem doneBlock_run (endV d : Int) (hend : endV ≠ -1) :
    ∀ (evs : List ChunkEvent) (ws : List (Int × Int)), (∀ w ∈ ws, w.2 = 0) →
      ((downloadBlockRun endV (FetchState.mk (endV + 1) d ws) evs).state.Begin = endV + 1) ∧
      ((downloadBlockRun endV (FetchState.mk (endV + 1) d ws) evs).state.Downloaded = d) ∧
      (∀ w ∈ (downloadBlockRun endV (FetchState.mk (endV + 1) d ws) evs).state.writes,
        w.2 = 0) ∧
      ((downloadBlockRun endV (FetchState.mk (endV + 1) d ws) evs).outcome =
          some FetchOutcome.netError →
        ∃ ev ∈ evs, ev.paused = false ∧ ev.n = 0 ∧ ev.sig = ReadSignal.fail) ∧
      ((downloadBlockRun endV (FetchState.mk (endV + 1) d ws) evs).outcome ≠
          some FetchOutcome.panicked) := by
  intro evs
  induction evs with
  | nil =>
    intro ws hws
    exact ⟨rfl, rfl, hws, by simp [downloadBlockRun, RunResult.outcome],
      by simp [downloadBlockRun, RunResult.outcome]⟩
  | cons ev evs ih =>
    intro ws hws
    have hws' : ∀ w ∈ ws ++ [((endV + 1 : Int), (0 : Int))], w.2 = 0 := by
      intro w hw
      rcases List.mem_append.mp hw with h1 | h2
      · exact hws w h1
      · simp only [List.mem_singleton] at h2
        subst h2
        rfl
    by_cases hp : ev.paused = true
    · have hrun : downloadBlockRun endV (FetchState.mk (endV + 1) d ws) (ev :: evs) =
          RunResult.finished FetchOutcome.success (FetchState.mk (endV + 1) d ws) := by
        simp [downloadBlockRun, downloadBlockStep, hp]
      rw [hrun]
      exact ⟨rfl, rfl, hws, by simp [RunResult.outcome], by simp [RunResult.outcome]⟩
    · have hp' : ev.paused = false := by simpa using hp
      have hstep := doneBlock_step endV d ws hend ev hp'
      by_cases hn : ev.n = 0
      · rw [if_pos hn] at hstep
        cases hsig : ev.sig
        · rw [hsig] at hstep
          have hrun : downloadBlockRun endV (FetchState.mk (endV + 1) d ws) (ev :: evs) =
              downloadBlockRun endV (FetchState.mk (endV + 1) d (ws ++ [(endV + 1, 0)])) evs := by
            simp [downloadBlockRun, hstep]
          rw [hrun]
          have hrec := ih (ws ++ [(endV + 1, 0)]) hws'
          refine ⟨hrec.1, hrec.2.1, hrec.2.2.1, ?_, hrec.2.2.2.2⟩
          intro hne
          rcases hrec.2.2.2.1 hne with ⟨ev', hmem, hprop⟩
          exact ⟨ev', List.mem_cons_of_mem ev hmem, hprop⟩
        · rw [hsig] at hstep
          have hrun : downloadBlockRun endV (FetchState.mk (endV + 1) d ws) (ev :: evs) =
              RunResult.finished FetchOutcome.success
                (FetchState.mk (endV + 1) d (ws ++ [(endV + 1, 0)])) := by
            simp [downloadBlockRun, hstep]
          rw [hrun]
          exact ⟨rfl, rfl, hws', by simp [RunResult.outcome], by simp [RunResult.outcome]⟩
        · rw [hsig] at hstep
          have hrun : downloadBlockRun endV (FetchState.mk (endV + 1) d ws) (ev :: evs) =
              RunResult.finished FetchOutcome.netError
                (FetchState.mk (endV + 1) d (ws ++ [(endV + 1, 0)])) := by
            simp [downloadBlockRun, hstep]
          rw [hrun]
          refine ⟨rfl, rfl, hws', ?_, by simp [RunResult.outcome]⟩
          intro _
          exact ⟨ev, List.mem_cons_self ev evs, hp', hn, hsig⟩
      · rw [if_neg hn] at hstep
        have hrun : downloadBlockRun endV (FetchState.mk (endV + 1) d ws) (ev :: evs) =
            RunResult.finished FetchOutcome.success
              (FetchState.mk (endV + 1) d (ws ++ [(endV + 1, 0)])) := by
          simp [downloadBlockRun, hstep]
        rw [hrun]
        exact ⟨rfl, rfl, hws', by simp [RunResult.outcome], by simp [RunResult.outcome]⟩

/-- C7 counterexample: the claim says the fetch of an already-completed block
(`Begin > End`) returns success.  On block `{Begin 10, End 9}`, a single read
reporting zero bytes with a failure signal makes `downloadBlock` return that
error — outcome `netError`, not success — so the re-dispatched fetch is
retried rather than succeeding. -/
theorem C7_counterexample_done_block_can_fail :
    (downloadBlockRun 9 (FetchState.mk 10 0 [])
        [ChunkEvent.mk false 0 ReadSignal.fail true]).outcome =
      some FetchOutcome.netError ∧
    (downloadBlockRun 9 (FetchState.mk 10 0 [])
        [ChunkEvent.mk false 0 ReadSignal.fail true]).outcome ≠
      some FetchOutcome.success := by
  decide

/-- C7 amended: re-dispatching the fetch of a fully fetched bounded block
(`Begin = End + 1`, the only reachable form of `Begin > End`) is a no-op on
the data: for every schedule, `Begin` and `Downloaded` keep their values and
every write has length zero, so nothing is re-fetched and `Downloaded` is not
double-counted; the run never panics, and it returns success except when a
read fails having delivered zero bytes, in which case that error is surfaced
for retry instead of success. -/
theorem C7_done_block_noop (endV d : Int) (evs : List ChunkEvent)
    (hend : endV ≠ -1) :
    ((downloadBlockRun endV (FetchState.mk (endV + 1) d []) evs).state.Begin = endV + 1) ∧
    ((downloadBlockRun endV (FetchState.mk (endV + 1) d []) evs).state.Downloaded = d) ∧
    (∀ w ∈ (downloadBlockRun endV (FetchState.mk (endV + 1) d []) evs).state.writes,
      w.2 = 0) ∧
    ((downloadBlockRun endV (FetchState.mk (endV + 1) d []) evs).outcome =
        some FetchOutcome.netError →
      ∃ ev ∈ evs, ev.paused = false ∧ ev.n = 0 ∧ ev.sig = ReadSignal.fail) ∧
    ((downloadBlockRun endV (FetchState.mk (endV + 1) d []) evs).outcome ≠
        some FetchOutcome.panicked) :=
  doneBlock_run endV d hend evs [] (by simp)

/-- C7 witness: the amended theorem applied to block `{Begin 10, End 9}` with
one 5-byte read: the read is truncated to zero, nothing is written, and
`Downloaded` stays at 3. -/
theorem C7_done_block_noop_witness :
    ((downloadBlockRun 9 (FetchState.mk 10 3 [])
        [ChunkEvent.mk false 5 ReadSignal.ok true]).state.Begin = 10) ∧
    ((downloadBlockRun 9 (FetchState.mk 10 3 [])
        [ChunkEvent.mk false 5 ReadSignal.ok true]).state.Downloaded = 3) := by
  have h := C7_done_block_noop 9 3 [ChunkEvent.mk false 5 ReadSignal.ok true] (by decide)
  exact ⟨by simpa using h.1, by simpa using h.2.1⟩

/-- C8: `Status.Downloaded` is monotonically non-decreasing across every
sequence of engine operations — planning, fetcher chunk iterations (including
truncated, failing and pause-interrupted ones), `Pause`, `Resume`, the
Paused/Finished decision, and speed sampling. -/
theorem C8_downloaded_monotone (t t' : TransferState)
    (h : Relation.ReflTransGen EngineStep t t') :
    t.status.Downloaded ≤ t'.status.Downloaded := by
  induction h with
  | refl => exact le_refl _
  | tail _ hstep ih => exact le_trans ih (engineStep_downloaded_mono hstep)

/-- C8 witness: a concrete three-step trace — one 4-byte chunk on the single
block, then `Pause`, then a speed reset — never decreases `Downloaded`. -/
theorem C8_downloaded_monotone_witness :
    (TransferState.mk 100 [Block.mk 0 99] false (Status.mk 0 0)).status.Downloaded ≤
      (Pause (applyChunk (TransferState.mk 100 [Block.mk 0 99] false (Status.mk 0 0)) 0 99
        ((downloadBlockStep 99
          (blockFetchState (TransferState.mk 100 [Block.mk 0 99] false (Status.mk 0 0))
            (Block.mk 0 99))
          (ChunkEvent.mk false 4 ReadSignal.ok true)).state))).status.Downloaded :=
  C8_downloaded_monotone _ _
    (Relation.ReflTransGen.tail
      (Relation.ReflTransGen.single
        (EngineStep.chunk (TransferState.mk 100 [Block.mk 0 99] false (Status.mk 0 0))
          0 (Block.mk 0 99) (ChunkEvent.mk false 4 ReadSignal.ok true) rfl))
      (EngineStep.pauseStep _))
